import Mathlib

/-!
# PhotoCull — verification of the decision/sync core

Shallow embedding of the PhotoCull sources:
* `src/App.tsx` — catalog state, `makeDecision`, `undoLast`, `handlePeerMessage`,
  the host sync/prefetch effect, `loadFolder`, `executeLiveDeletion`;
* `src/services/dbService.ts` — the persistence gateway (PocketBase record
  operations and IndexedDB handle operations), including `relinkSession`.

React state updates are modelled as explicit state passing; asynchronous
persistence calls are modelled as an output list of database operations;
peer sends are modelled as an output list of messages.  Fallible backend
calls are modelled with `Except`: a `.error` result corresponds to a
rejected promise reaching the caller.
-/

namespace PhotoCull

/-- `Decision` from `types.ts`: `'keep' | 'delete' | 'pending'`. -/
inductive Decision where
  | pending
  | keep
  | delete
deriving DecidableEq, Repr

/-- The three top-level views of the app: `'landing' | 'culling' | 'summary'`. -/
inductive View where
  | landing
  | culling
  | summary
deriving DecidableEq, Repr

/-- `ImageItem` from `types.ts`.  The opaque `FileSystemFileHandle` is modelled
by `fileData`, the byte payload readable through the handle
(`getFileDataUrl(handle)`); `url` is presentation-only and omitted. -/
structure ImageItem where
  id : String
  name : String
  relativePath : String
  fileData : String
  decision : Decision
deriving DecidableEq, Repr

/-- `SimplifiedImage` from `types.ts` (what `INIT_SYNC` carries: no handle). -/
structure SimplifiedImage where
  id : String
  name : String
  relativePath : String
  decision : Decision
deriving DecidableEq, Repr

/-- An entry of the remote image cache: `{ dataUrl, name }` keyed by index. -/
structure CacheEntry where
  dataUrl : String
  name : String
deriving DecidableEq, Repr

/-- `PeerMessage` from `types.ts`.  The `stats` payload of `INIT_SYNC` is
ignored by every receiver and omitted here; `SYNC_INDEX` is declared in
`types.ts` but never sent nor handled, and is kept for completeness. -/
inductive PeerMessage where
  | INIT_SYNC (images : List SimplifiedImage) (currentIndex : Nat)
      (rootFolderName : String) (view : View)
  | IMAGE_DATA (id : String) (name : String) (dataUrl : String) (index : Nat)
  | DECISION (decision : Decision) (index : Nat)
  | DECISION_ACK (index : Nat)
  | UNDO
  | NAVIGATE (view : View) (index : Option Nat)
  | SYNC_INDEX (index : Nat)
deriving DecidableEq, Repr

/-- `CullSession` as persisted (`updatedAt` wall-clock time is irrelevant to
the claims and omitted; the in-memory directory handle is not part of the
PocketBase record). -/
structure CullSession where
  directoryName : String
  lastIndex : Nat
  totalImages : Nat
  isDone : Bool
deriving DecidableEq, Repr

/-- `ImageDecision` from `dbService.ts`. -/
structure ImageDecision where
  directoryName : String
  relativePath : String
  decision : Decision
deriving DecidableEq, Repr

/-- A persistence call issued by the app core (`dbService.saveSession` /
`dbService.saveDecision`). -/
inductive DbOp where
  | saveSession (s : CullSession)
  | saveDecision (d : ImageDecision)
deriving DecidableEq, Repr

/-- The React component state of `App` relevant to the core
(`src/App.tsx`): catalog, cursor, history stack, peer-role flags, the
remote image cache and the saving indicator.  `hasRootHandle` stands for
`rootHandle !== null`; `connected` for `connection !== null`. -/
structure AppState where
  view : View
  images : List ImageItem
  rootFolderName : String
  hasRootHandle : Bool
  currentIndex : Nat
  history : List Nat
  isSaving : Bool
  isRemote : Bool
  connected : Bool
  remoteImageCache : List (Nat × CacheEntry)
deriving DecidableEq, Repr

/-! ## List helpers mirroring the JS array operations used by the source -/

/-- `updatedImages[targetIndex] = { ...updatedImages[targetIndex], decision }`:
replace the decision of the element at a given index (out of range: no-op). -/
def setDecisionAt : List ImageItem → Nat → Decision → List ImageItem
  | [], _, _ => []
  | img :: rest, 0, d => { img with decision := d } :: rest
  | img :: rest, n + 1, d => img :: setDecisionAt rest n d

/-- `imgs.findIndex(img => img.decision === 'pending')`, as an `Option`. -/
def findPendingIdx : List ImageItem → Option Nat
  | [] => none
  | img :: rest =>
      if img.decision = Decision.pending then some 0
      else (findPendingIdx rest).map (· + 1)

/-- `imgs.findIndex((img, idx) => idx > t && img.decision === 'pending')`:
the smallest index strictly greater than `t` holding a pending record. -/
def nextPendingAfter (imgs : List ImageItem) (t : Nat) : Option Nat :=
  (findPendingIdx (imgs.drop (t + 1))).map (· + (t + 1))

/-- `imgs.findIndex(i => i.id === targetId)`, as an `Option`. -/
def findIdxById : List ImageItem → String → Option Nat
  | [], _ => none
  | img :: rest, targetId =>
      if img.id = targetId then some 0
      else (findIdxById rest targetId).map (· + 1)

/-- `const idx = imgs.findIndex(i => i.id === targetId); if (idx !== -1)
imgs.splice(idx, 1)`: remove the first element with the given id. -/
def removeFirstById : List ImageItem → String → List ImageItem
  | [], _ => []
  | img :: rest, targetId =>
      if img.id = targetId then rest
      else img :: removeFirstById rest targetId

/-- Lookup in the remote image cache (`remoteImageCache[index]`). -/
def cacheLookup (cache : List (Nat × CacheEntry)) (index : Nat) :
    Option CacheEntry :=
  (cache.find? (fun p => p.1 = index)).map Prod.snd

/-- `setRemoteImageCache(prev => ({ ...prev, [index]: entry }))`. -/
def cacheInsert (cache : List (Nat × CacheEntry)) (index : Nat)
    (entry : CacheEntry) : List (Nat × CacheEntry) :=
  if cache.any (fun p => p.1 = index) then
    cache.map (fun p => if p.1 = index then (index, entry) else p)
  else
    cache ++ [(index, entry)]

/-! ## Decision engine (`src/App.tsx`) -/

/-- `performSave(newImages, newIndex)`: the checkpoint issued after a host
mutation.  Returns the persistence calls made.  The session's `isDone` is
`newImages.every(img => img.decision !== 'pending')`; the decision record
saved is the one at the last index of the history stack at save time
(`historyRef.current`), passed here explicitly as `hist`.  Indices stored
in the history stack are always in range of the catalog they were pushed
for; the out-of-range branch is unreachable. -/
def performSave (isRemote hasRootHandle : Bool) (rootFolderName : String)
    (newImages : List ImageItem) (newIndex : Nat) (hist : List Nat) :
    List DbOp :=
  if isRemote || !hasRootHandle then []
  else
    let session : CullSession :=
      { directoryName := rootFolderName
        lastIndex := newIndex
        totalImages := newImages.length
        isDone := newImages.all (fun img => img.decision ≠ Decision.pending) }
    match hist.getLast? with
    | some lastIndex =>
        match newImages.get? lastIndex with
        | some img =>
            [DbOp.saveSession session,
             DbOp.saveDecision
               ⟨rootFolderName, img.relativePath, img.decision⟩]
        | none => [DbOp.saveSession session]
    | none => [DbOp.saveSession session]

/-- `makeDecision(decision, specificIndex?)` (`src/App.tsx` lines 772-793).
Returns the updated component state, the peer messages sent and the
persistence calls made.  On the host the next cursor is the first pending
index after the target, else the first pending index anywhere, else
`targetIndex + 1`; on the remote only a `DECISION` intent is sent. -/
def makeDecision (s : AppState) (decision : Decision)
    (specificIndex : Option Nat) :
    AppState × List PeerMessage × List DbOp :=
  let targetIndex := specificIndex.getD s.currentIndex
  if s.images.length ≤ targetIndex then (s, [], [])
  else if s.isRemote = false then
    let updatedImages := setDecisionAt s.images targetIndex decision
    let history1 := s.history ++ [targetIndex]
    let nextPendingIndex := nextPendingAfter updatedImages targetIndex
    let finalNextIndex :=
      match nextPendingIndex with
      | some j => some j
      | none => findPendingIdx updatedImages
    let newIdx := finalNextIndex.getD (targetIndex + 1)
    let dbOps :=
      performSave s.isRemote s.hasRootHandle s.rootFolderName
        updatedImages newIdx history1
    let s1 : AppState :=
      { s with
        images := updatedImages
        history := history1
        currentIndex := newIdx
        isSaving := if s.hasRootHandle then false else s.isSaving }
    let msgs :=
      if s.connected then [PeerMessage.DECISION_ACK targetIndex] else []
    (s1, msgs, dbOps)
  else
    let msgs :=
      if s.connected then [PeerMessage.DECISION decision targetIndex] else []
    (s, msgs, [])

/-- `relativePath` of the record at an index (used by `undoLast`; its
history indices are always in range, so the default is unreachable). -/
def relPathAt (imgs : List ImageItem) (i : Nat) : String :=
  ((imgs.get? i).map (fun img => img.relativePath)).getD ""

/-- `undoLast()` (`src/App.tsx` lines 795-826).  On the remote it only sends
an `UNDO` intent; on the host it is a silent no-op when the history stack
is empty, otherwise it pops the last decided index, resets that record to
pending and moves the cursor there, then checkpoints. -/
def undoLast (s : AppState) : AppState × List PeerMessage × List DbOp :=
  if s.isRemote then
    (s, if s.connected then [PeerMessage.UNDO] else [], [])
  else
    match s.history.getLast? with
    | none => (s, [], [])
    | some lastIndex =>
        let updatedImages := setDecisionAt s.images lastIndex Decision.pending
        let s1 : AppState :=
          { s with
            images := updatedImages
            history := s.history.dropLast
            currentIndex := lastIndex }
        let dbOps :=
          [DbOp.saveDecision
             ⟨s.rootFolderName, relPathAt updatedImages lastIndex,
              Decision.pending⟩,
           DbOp.saveSession
             { directoryName := s.rootFolderName
               lastIndex := lastIndex
               totalImages := s.images.length
               isDone := false }]
        (s1, [], dbOps)

/-- `handlePeerMessage(msg)` (`src/App.tsx` lines 828-853).  `INIT_SYNC`
replaces the mirror catalog (file handles stubbed: empty `fileData`);
`IMAGE_DATA` fills the remote image cache; `DECISION` is applied through
`makeDecision`; `DECISION_ACK` clears the remote saving indicator; `UNDO`
runs `undoLast` on the host; `NAVIGATE` sets view and, when present,
cursor. -/
def handlePeerMessage (s : AppState) (msg : PeerMessage) :
    AppState × List PeerMessage × List DbOp :=
  match msg with
  | PeerMessage.INIT_SYNC imgs idx name v =>
      ({ s with
         images := imgs.map (fun sim =>
           { id := sim.id, name := sim.name, relativePath := sim.relativePath
             fileData := "", decision := sim.decision })
         currentIndex := idx
         rootFolderName := name
         view := v }, [], [])
  | PeerMessage.IMAGE_DATA _id name dataUrl index =>
      ({ s with
         remoteImageCache := cacheInsert s.remoteImageCache index
           ⟨dataUrl, name⟩ }, [], [])
  | PeerMessage.DECISION d index => makeDecision s d (some index)
  | PeerMessage.DECISION_ACK _ =>
      (if s.isRemote then { s with isSaving := false } else s, [], [])
  | PeerMessage.UNDO =>
      if s.isRemote = false then undoLast s else (s, [], [])
  | PeerMessage.NAVIGATE v idx? =>
      ({ s with view := v, currentIndex := idx?.getD s.currentIndex }, [], [])
  | PeerMessage.SYNC_INDEX _ => (s, [], [])

/-! ## Host sync / prefetch effect (`src/App.tsx` lines 887-910) -/

/-- The `INIT_SYNC` message the host builds from its state. -/
def initSyncMsg (s : AppState) : PeerMessage :=
  PeerMessage.INIT_SYNC
    (s.images.map (fun img =>
      { id := img.id, name := img.name, relativePath := img.relativePath
        decision := img.decision }))
    s.currentIndex s.rootFolderName s.view

/-- `sendImage(index)`: sends `IMAGE_DATA` for an in-range index not already
present in `remoteImageCache`.  The payload is the file content read
through the record's handle. -/
def sendImage (s : AppState) (index : Nat) : List PeerMessage :=
  if index < s.images.length ∧ cacheLookup s.remoteImageCache index = none then
    match s.images.get? index with
    | some img => [PeerMessage.IMAGE_DATA img.id img.name img.fileData index]
    | none => []
  else []

/-- The host-side effect that runs whenever the cursor changes (or the
connection opens) with a non-empty catalog: push `INIT_SYNC`, then
`IMAGE_DATA` for the current index and the next two.  Note that the effect
does not modify `remoteImageCache` (the source never records what it
sent); it only reads it. -/
def pushSyncEffect (s : AppState) : List PeerMessage :=
  if s.isRemote = false ∧ s.connected = true ∧ 0 < s.images.length then
    initSyncMsg s ::
      (sendImage s s.currentIndex ++ sendImage s (s.currentIndex + 1) ++
        sendImage s (s.currentIndex + 2))
  else []

/-! ## Folder loading (`src/App.tsx` lines 912-941) -/

/-- The scan-merge step of `loadFolder`: overwrite each freshly scanned
record's decision with the persisted one when present (`browserDecisions`
is the map returned by `getDecisionsForDirectory`). -/
def mergeDecisions (found : List ImageItem) (decs : String → Option Decision) :
    List ImageItem :=
  found.map (fun img =>
    match decs img.relativePath with
    | some d => { img with decision := d }
    | none => img)

/-- The state produced by `loadFolder` after a successful scan: merged
catalog, starting cursor (first pending index, else 0), cleared history,
and the initial view (`summary` when nothing is pending and the catalog is
non-empty, else `culling`). -/
def loadFolder (found : List ImageItem) (decs : String → Option Decision) :
    List ImageItem × Nat × View × List Nat :=
  let merged := mergeDecisions found decs
  let firstUndecidedIndex := findPendingIdx merged
  let startIndex := firstUndecidedIndex.getD 0
  let allDone := firstUndecidedIndex = none ∧ 0 < merged.length
  (merged, startIndex, if allDone then View.summary else View.culling, [])

/-! ## Bulk deletion (`src/App.tsx` lines 996-1049) -/

/-- The per-file loop of `executeLiveDeletion` over the `delete`-flagged
records: `ok` tells whether the physical `deleteFile` succeeds for a
record.  On success the record is spliced out of the working catalog (by
id) and its persisted decision is reset to `pending`; on failure the
record is kept (log and continue).  Also returns the `(processed, total)`
progress reports, one per attempted record. -/
def deletionPass (updated : List ImageItem) (toDelete : List ImageItem)
    (ok : ImageItem → Bool) (dir : String) (total : Nat) (count : Nat) :
    List ImageItem × List DbOp × List (Nat × Nat) :=
  match toDelete with
  | [] => (updated, [], [])
  | img :: rest =>
      if ok img then
        let updated1 := removeFirstById updated img.id
        let (finalImgs, ops, prog) :=
          deletionPass updated1 rest ok dir total (count + 1)
        (finalImgs,
         DbOp.saveDecision ⟨dir, img.relativePath, Decision.pending⟩ :: ops,
         (count + 1, total) :: prog)
      else
        let (finalImgs, ops, prog) :=
          deletionPass updated rest ok dir total (count + 1)
        (finalImgs, ops, (count + 1, total) :: prog)

/-- `executeLiveDeletion()` — `permissionGranted` models the result of the
`readwrite` permission request: when denied (or without a root handle) the
operation is a total no-op.  Otherwise: remember the viewed record's id
(`images[currentIndex]?.id`, a JS-falsy empty id behaves like absence),
attempt deletion of every `delete`-flagged record, then recompute the
cursor (by id, else first pending, else 0) and clear the history. -/
def executeLiveDeletion (s : AppState) (permissionGranted : Bool)
    (ok : ImageItem → Bool) : AppState × List DbOp × List (Nat × Nat) :=
  if s.hasRootHandle = false then (s, [], [])
  else if permissionGranted = false then (s, [], [])
  else
    let targetImgId := (s.images.get? s.currentIndex).map (fun img => img.id)
    let toDelete := s.images.filter (fun img => img.decision = Decision.delete)
    let dp := deletionPass s.images toDelete ok s.rootFolderName toDelete.length 0
    let updatedImages := dp.1
    let dbOps := dp.2.1
    let prog := dp.2.2
    let newIndex :=
      match targetImgId with
      | some tid =>
          if tid = "" then 0
          else
            match findIdxById updatedImages tid with
            | some foundIdx => foundIdx
            | none =>
                match findPendingIdx updatedImages with
                | some pendingIdx => pendingIdx
                | none => 0
      | none => 0
    let s1 : AppState :=
      { s with
        images := updatedImages
        currentIndex := newIndex
        history := [] }
    (s1, dbOps, prog)

/-! ## Persistence gateway (`src/services/dbService.ts`)

PocketBase is modelled as an in-memory record store `PBState` with an
`available` flag: when unavailable, every collection operation rejects
(`DbErr.pbUnreachable`).  The IndexedDB handle store is `IDBState` with
its own availability flag; a request whose `onerror` fires corresponds to
`DbErr.idbFailure`.  Gateway methods that wrap their body in `try/catch`
return plain values (degrading on error); methods without a catch return
`Except`, a rejected promise reaching the caller. -/

/-- A PocketBase record of the `sessions` collection (`rid` is the
PocketBase record id used by `update`). -/
structure SessionRecord where
  rid : Nat
  directoryName : String
  lastIndex : Nat
  totalImages : Nat
  isDone : Bool
deriving DecidableEq, Repr

/-- A PocketBase record of the `decisions` collection. -/
structure DecisionRecord where
  rid : Nat
  directoryName : String
  relativePath : String
  decision : Decision
deriving DecidableEq, Repr

/-- The PocketBase backend: reachable or not, plus the two collections.
`nextRid` supplies fresh record ids for `create`. -/
structure PBState where
  available : Bool
  sessions : List SessionRecord
  decisions : List DecisionRecord
  nextRid : Nat
deriving DecidableEq, Repr

/-- The local IndexedDB handle store; a handle is modelled as an opaque
string token. -/
structure IDBState where
  available : Bool
  handles : List (String × String)
deriving DecidableEq, Repr

/-- A failure of a backend call: PocketBase unreachable, a PocketBase
lookup with no match (404), or an IndexedDB request error. -/
inductive DbErr where
  | pbUnreachable
  | pbNotFound
  | idbFailure
deriving DecidableEq, Repr

/-- `pb.collection('sessions').getFirstListItem('directoryName="…"')`. -/

def sessionsGetFirstListItem (db : PBState) (name : String) :
    Except DbErr SessionRecord :=
  if db.available then
    match db.sessions.find? (fun r => r.directoryName = name) with
    | some r => Except.ok r
    | none => Except.error DbErr.pbNotFound
  else Except.error DbErr.pbUnreachable

/-- `pb.collection('sessions').getFullList(...)` (the server-side sort by
`updatedAt` is not modelled; no claim depends on the order). -/
def sessionsGetFullList (db : PBState) :
    Except DbErr (List SessionRecord) :=
  if db.available then Except.ok db.sessions
  else Except.error DbErr.pbUnreachable

/-- `pb.collection('sessions').update(rid, data)` with session fields. -/
def sessionsUpdate (db : PBState) (rid : Nat) (data : CullSession) :
    Except DbErr PBState :=
  if db.available then
    Except.ok { db with
      sessions := db.sessions.map (fun r =>
        if r.rid = rid then
          { r with directoryName := data.directoryName
                   lastIndex := data.lastIndex
                   totalImages := data.totalImages
                   isDone := data.isDone }
        else r) }
  else Except.error DbErr.pbUnreachable

/-- `pb.collection('sessions').update(rid, { directoryName })` as issued
by `relinkSession` (only the key field changes). -/
def sessionsUpdateName (db : PBState) (rid : Nat) (newName : String) :
    Except DbErr PBState :=
  if db.available then
    Except.ok { db with
      sessions := db.sessions.map (fun r =>
        if r.rid = rid then { r with directoryName := newName } else r) }
  else Except.error DbErr.pbUnreachable

/-- `pb.collection('sessions').create(data)`. -/
def sessionsCreate (db : PBState) (data : CullSession) :
    Except DbErr PBState :=
  if db.available then
    Except.ok { db with
      sessions := db.sessions ++
        [{ rid := db.nextRid
           directoryName := data.directoryName
           lastIndex := data.lastIndex
           totalImages := data.totalImages
           isDone := data.isDone }]
      nextRid := db.nextRid + 1 }
  else Except.error DbErr.pbUnreachable

/-- `pb.collection('decisions').getFirstListItem(filter)` for the
`(directoryName, relativePath)` upsert filter. -/
def decisionsGetFirstListItem (db : PBState) (dir path : String) :
    Except DbErr DecisionRecord :=
  if db.available then
    match db.decisions.find? (fun r =>
        r.directoryName = dir ∧ r.relativePath = path) with
    | some r => Except.ok r
    | none => Except.error DbErr.pbNotFound
  else Except.error DbErr.pbUnreachable

/-- `pb.collection('decisions').getFullList({ filter: directoryName })`. -/
def decisionsGetFullList (db : PBState) (dir : String) :
    Except DbErr (List DecisionRecord) :=
  if db.available then
    Except.ok (db.decisions.filter (fun r => r.directoryName = dir))
  else Except.error DbErr.pbUnreachable

/-- `pb.collection('decisions').update(rid, data)` with decision fields. -/
def decisionsUpdate (db : PBState) (rid : Nat) (data : ImageDecision) :
    Except DbErr PBState :=
  if db.available then
    Except.ok { db with
      decisions := db.decisions.map (fun r =>
        if r.rid = rid then
          { r with directoryName := data.directoryName
                   relativePath := data.relativePath
                   decision := data.decision }
        else r) }
  else Except.error DbErr.pbUnreachable

/-- `pb.collection('decisions').update(rid, { directoryName })` as issued
by `relinkSession`. -/
def decisionsUpdateName (db : PBState) (rid : Nat) (newName : String) :
    Except DbErr PBState :=
  if db.available then
    Except.ok { db with
      decisions := db.decisions.map (fun r =>
        if r.rid = rid then { r with directoryName := newName } else r) }
  else Except.error DbErr.pbUnreachable

/-- `pb.collection('decisions').create(data)`. -/
def decisionsCreate (db : PBState) (data : ImageDecision) :
    Except DbErr PBState :=
  if db.available then
    Except.ok { db with
      decisions := db.decisions ++
        [{ rid := db.nextRid
           directoryName := data.directoryName
           relativePath := data.relativePath
           decision := data.decision }]
      nextRid := db.nextRid + 1 }
  else Except.error DbErr.pbUnreachable

/-- The raw IndexedDB `put` request issued by `storeHandleLocally`:
replaces any value previously stored under the key (IndexedDB stores are
keyed maps, so the entry order carries no meaning and the replaced entry
is modelled as remove-then-add). -/
def idbPut (st : IDBState) (name handle : String) : Except DbErr IDBState :=
  if st.available then
    Except.ok { st with
      handles := st.handles.filter (fun p => p.1 ≠ name) ++ [(name, handle)] }
  else Except.error DbErr.idbFailure

/-- The raw IndexedDB `delete` request issued by `deleteHandleLocally`. -/
def idbDelete (st : IDBState) (name : String) : Except DbErr IDBState :=
  if st.available then
    Except.ok { st with
      handles := st.handles.filter (fun p => p.1 ≠ name) }
  else Except.error DbErr.idbFailure

/-- The raw IndexedDB `get` request issued by `getHandleLocally`
(`request.result || null`). -/
def idbGet (st : IDBState) (name : String) : Except DbErr (Option String) :=
  if st.available then
    Except.ok ((st.handles.find? (fun p => p.1 = name)).map Prod.snd)
  else Except.error DbErr.idbFailure

/-- `storeHandleLocally` (`dbService.ts` lines 203-212): no `try/catch` —
an IndexedDB request error rejects the returned promise. -/
def storeHandleLocally (st : IDBState) (name handle : String) :
    Except DbErr IDBState :=
  idbPut st name handle

/-- `deleteHandleLocally` (`dbService.ts` lines 214-223): no `try/catch`. -/
def deleteHandleLocally (st : IDBState) (name : String) :
    Except DbErr IDBState :=
  idbDelete st name

/-- `getHandleLocally` (`dbService.ts` lines 225-234): no `try/catch`. -/
def getHandleLocally (st : IDBState) (name : String) :
    Except DbErr (Option String) :=
  idbGet st name

/-- `saveSession` (`dbService.ts` lines 236-259): upsert wrapped in a
`try/catch`, so any backend failure leaves the stores unchanged.  The
handle store update (`storeHandleLocally`, called when the session carries
a handle, flagged here by `hasHandle`) sits inside the same `try`, so its
failure is also swallowed — but then the PocketBase write has already
happened. -/
def saveSession (db : PBState) (st : IDBState) (session : CullSession)
    (hasHandle : Bool) (handle : String) : PBState × IDBState :=
  let upsert : Except DbErr PBState :=
    match (sessionsGetFirstListItem db session.directoryName).toOption with
    | some r => sessionsUpdate db r.rid session
    | none => sessionsCreate db session
  match upsert with
  | Except.error _ => (db, st)
  | Except.ok db1 =>
      if hasHandle then
        match storeHandleLocally st session.directoryName handle with
        | Except.ok st1 => (db1, st1)
        -- the catch swallows the handle-store failure, but the PocketBase
        -- write has already landed
        | Except.error _ => (db1, st)
      else (db1, st)

/-- `getAllSessions` (`dbService.ts` lines 261-274): `try/catch`, returning
`[]` on failure. -/
def getAllSessions (db : PBState) : List CullSession :=
  match sessionsGetFullList db with
  | Except.ok records =>
      records.map (fun r =>
        { directoryName := r.directoryName
          lastIndex := r.lastIndex
          totalImages := r.totalImages
          isDone := r.isDone })
  | Except.error _ => []

/-- `getSession` (`dbService.ts` lines 276-290): `try/catch` plus a
`.catch(() => null)` on the lookup, returning `null` on failure. -/
def getSession (db : PBState) (name : String) : Option CullSession :=
  match (sessionsGetFirstListItem db name).toOption with
  | some r =>
      some { directoryName := r.directoryName
             lastIndex := r.lastIndex
             totalImages := r.totalImages
             isDone := r.isDone }
  | none => none

/-- `saveDecision` (`dbService.ts` lines 292-310): upsert wrapped in a
`try/catch`, leaving the store unchanged on failure. -/
def saveDecision (db : PBState) (d : ImageDecision) : PBState :=
  let attempt : Except DbErr PBState :=
    match (decisionsGetFirstListItem db d.directoryName
        d.relativePath).toOption with
    | some r => decisionsUpdate db r.rid d
    | none => decisionsCreate db d
  match attempt with
  | Except.ok db1 => db1
  | Except.error _ => db

/-- `getDecisionsForDirectory` (`dbService.ts` lines 312-321): builds a
`relativePath → decision` map (later records overwrite earlier ones, as
JS object assignment does), returning the empty map on failure. -/
def getDecisionsForDirectory (db : PBState) (dir : String) :
    List (String × Decision) :=
  match decisionsGetFullList db dir with
  | Except.ok records =>
      records.foldl (fun m r =>
        if m.any (fun p => p.1 = r.relativePath) then
          m.map (fun p =>
            if p.1 = r.relativePath then (r.relativePath, r.decision) else p)
        else m ++ [(r.relativePath, r.decision)]) []
  | Except.error _ => []

/-- The decision-migration loop of `relinkSession`: update each enumerated
record's `directoryName`, incrementing the counter and reporting
`(count, total)` after each update.  Any failed update rejects the whole
call. -/
def migrateDecisions (db : PBState) (recs : List DecisionRecord)
    (newPath : String) (total : Nat) (count : Nat) :
    Except DbErr (PBState × List (Nat × Nat)) :=
  match recs with
  | [] => Except.ok (db, [])
  | r :: rest =>
      match decisionsUpdateName db r.rid newPath with
      | Except.error e => Except.error e
      | Except.ok db1 =>
          match migrateDecisions db1 rest newPath total (count + 1) with
          | Except.error e => Except.error e
          | Except.ok (db2, prog) =>
              Except.ok (db2, (count + 1, total) :: prog)

/-- `relinkSession` (`dbService.ts` lines 323-344): no `try/catch` — any
failing step rejects the promise.  Step 1 updates the session record's
key (the lookup itself has a `.catch(() => null)`, so a missing or
unreachable session skips the update); step 2 migrates every decision
record with progress; step 3 swaps the locally cached handle. -/
def relinkSession (db : PBState) (st : IDBState)
    (oldPath newPath newHandle : String) :
    Except DbErr (PBState × IDBState × List (Nat × Nat)) :=
  let step1 : Except DbErr PBState :=
    match (sessionsGetFirstListItem db oldPath).toOption with
    | some r => sessionsUpdateName db r.rid newPath
    | none => Except.ok db
  match step1 with
  | Except.error e => Except.error e
  | Except.ok db1 =>
      match decisionsGetFullList db1 oldPath with
      | Except.error e => Except.error e
      | Except.ok decisions =>
          match migrateDecisions db1 decisions newPath decisions.length 0 with
          | Except.error e => Except.error e
          | Except.ok (db2, progress) =>
              match deleteHandleLocally st oldPath with
              | Except.error e => Except.error e
              | Except.ok st1 =>
                  match storeHandleLocally st1 newPath newHandle with
                  | Except.error e => Except.error e
                  | Except.ok st2 => Except.ok (db2, st2, progress)

/-! ## Specification predicates and basic lemmas -/

/-- The decision stored at an index of a catalog, when in range. -/
def decisionAt (imgs : List ImageItem) (i : Nat) : Option Decision :=
  (imgs.get? i).map (fun img => img.decision)

/-! ## Further derived definitions and concrete example states -/

/-- The next-cursor computation of the host branch of `makeDecision`. -/
def hostNextIdx (u : List ImageItem) (t : Nat) : Nat :=
  (match nextPendingAfter u t with
   | some j => some j
   | none => findPendingIdx u).getD (t + 1)

/-- A concrete image record for example states. -/
def exImg (i p : String) (d : Decision) : ImageItem :=
  { id := i, name := i ++ ".jpg", relativePath := p, fileData := "bytes-" ++ i
    decision := d }

/-- Host state whose only pending record is at index 0 of a length-3
catalog: deciding index 0 leaves nothing pending. -/
def exC1 : AppState :=
  { view := View.culling
    images := [exImg "a" "a.jpg" Decision.pending,
               exImg "b" "b.jpg" Decision.keep,
               exImg "c" "c.jpg" Decision.keep]
    rootFolderName := "root"
    hasRootHandle := true
    currentIndex := 0
    history := []
    isSaving := false
    isRemote := false
    connected := false
    remoteImageCache := [] }

/-- Host state matching the spec's skip-policy example
`[pending, delete, pending, keep]` with the cursor at index 0. -/
def exC1w : AppState :=
  { view := View.culling
    images := [exImg "w0" "p0" Decision.pending,
               exImg "w1" "p1" Decision.delete,
               exImg "w2" "p2" Decision.pending,
               exImg "w3" "p3" Decision.keep]
    rootFolderName := "root"
    hasRootHandle := true
    currentIndex := 0
    history := []
    isSaving := false
    isRemote := false
    connected := false
    remoteImageCache := [] }

/-- A connected remote mirror state with the cursor at index 0 and the
saving indicator lit. -/
def exRemote : AppState :=
  { view := View.culling
    images := [exImg "r0" "q0" Decision.pending,
               exImg "r1" "q1" Decision.pending]
    rootFolderName := "proj"
    hasRootHandle := false
    currentIndex := 0
    history := []
    isSaving := true
    isRemote := true
    connected := true
    remoteImageCache := [] }

/-- A host state with an empty catalog. -/
def exEmpty : AppState :=
  { view := View.culling
    images := []
    rootFolderName := "root"
    hasRootHandle := true
    currentIndex := 0
    history := []
    isSaving := false
    isRemote := false
    connected := true
    remoteImageCache := [] }

/-- A connected host with a three-record catalog, all pending, cursor at
index 0, and an empty send-tracking cache. -/
def exHost : AppState :=
  { view := View.culling
    images := [exImg "a" "p0" Decision.pending,
               exImg "b" "p1" Decision.pending,
               exImg "c" "p2" Decision.pending]
    rootFolderName := "root"
    hasRootHandle := true
    currentIndex := 0
    history := []
    isSaving := false
    isRemote := false
    connected := true
    remoteImageCache := [] }

/-- Iterated `removeFirstById` over a list of ids. -/
def remAll : List ImageItem → List String → List ImageItem
  | u, [] => u
  | u, tid :: rest => remAll (removeFirstById u tid) rest

/-- A record is physically removed by the bulk-deletion pass exactly when
it is `delete`-flagged and its `deleteFile` call succeeds. -/
def removedBy (ok : ImageItem → Bool) (img : ImageItem) : Bool :=
  decide (img.decision = Decision.delete) && ok img

/-- The spec's bulk-deletion example `[A(delete), B(keep), C(delete),
D(pending)]` with the cursor on `B`. -/
def exC5 : AppState :=
  { view := View.culling
    images := [exImg "A" "pa" Decision.delete,
               exImg "B" "pb" Decision.keep,
               exImg "C" "pc" Decision.delete,
               exImg "D" "pd" Decision.pending]
    rootFolderName := "root"
    hasRootHandle := true
    currentIndex := 1
    history := [0]
    isSaving := false
    isRemote := false
    connected := false
    remoteImageCache := [] }

/-- A PocketBase state with one session and two decisions under the key
`old`. -/
def exDB : PBState :=
  { available := true
    sessions := [{ rid := 0, directoryName := "old", lastIndex := 1,
                   totalImages := 2, isDone := false }]
    decisions := [{ rid := 1, directoryName := "old", relativePath := "p1",
                    decision := Decision.keep },
                  { rid := 2, directoryName := "old", relativePath := "p2",
                    decision := Decision.delete }]
    nextRid := 3 }

/-- A reachable IndexedDB handle store caching a handle under `old`. -/
def exIDB : IDBState :=
  { available := true, handles := [("old", "h0")] }

/-- An unreachable PocketBase backend. -/
def exDBDown : PBState :=
  { available := false, sessions := [], decisions := [], nextRid := 0 }

/-- A failing IndexedDB handle store. -/
def exIDBDown : IDBState :=
  { available := false, handles := [] }

theorem decisionAt_nil (i : Nat) : decisionAt [] i = none := by
  cases i <;> rfl

theorem decisionAt_cons_zero (img : ImageItem) (rest : List ImageItem) :
    decisionAt (img :: rest) 0 = some img.decision := rfl

theorem decisionAt_cons_succ (img : ImageItem) (rest : List ImageItem)
    (k : Nat) : decisionAt (img :: rest) (k + 1) = decisionAt rest k := rfl

theorem setDecisionAt_length (l : List ImageItem) (i : Nat) (d : Decision) :
    (setDecisionAt l i d).length = l.length := by
  induction l generalizing i with
  | nil => rfl
  | cons img rest ih =>
      cases i with
      | zero => rfl
      | succ n => simpa [setDecisionAt] using ih n

theorem get?_setDecisionAt_ne (l : List ImageItem) (i : Nat) (d : Decision)
    (j : Nat) (h : j ≠ i) : (setDecisionAt l i d).get? j = l.get? j := by
  induction l generalizing i j with
  | nil => rfl
  | cons img rest ih =>
      cases i with
      | zero =>
          cases j with
          | zero => exact absurd rfl h
          | succ m => rfl
      | succ n =>
          cases j with
          | zero => rfl
          | succ m =>
              simpa [setDecisionAt] using ih n m (by omega)

theorem decisionAt_setDecisionAt_self (l : List ImageItem) (i : Nat)
    (d : Decision) (h : i < l.length) :
    decisionAt (setDecisionAt l i d) i = some d := by
  induction l generalizing i with
  | nil => simp at h
  | cons img rest ih =>
      cases i with
      | zero => rfl
      | succ n =>
          have : n < rest.length := by simpa using h
          simpa [setDecisionAt, decisionAt_cons_succ] using ih n this

theorem findPendingIdx_spec_some (l : List ImageItem) (j : Nat)
    (h : findPendingIdx l = some j) :
    decisionAt l j = some Decision.pending ∧
      ∀ k, k < j → decisionAt l k ≠ some Decision.pending := by
  induction l generalizing j with
  | nil => simp [findPendingIdx] at h
  | cons img rest ih =>
      by_cases hp : img.decision = Decision.pending
      · simp only [findPendingIdx, if_pos hp] at h
        cases h
        exact ⟨by simp [decisionAt_cons_zero, hp], fun k hk => by omega⟩
      · simp only [findPendingIdx, if_neg hp] at h
        obtain ⟨j', hj', rfl⟩ := Option.map_eq_some'.mp h
        obtain ⟨h1, h2⟩ := ih j' hj'
        refine ⟨by simpa [decisionAt_cons_succ] using h1, ?_⟩
        intro k hk
        cases k with
        | zero =>
            simp only [decisionAt_cons_zero]
            intro hc
            exact hp (by simpa using hc)
        | succ m =>
            rw [decisionAt_cons_succ]
            exact h2 m (by omega)

theorem findPendingIdx_spec_none (l : List ImageItem)
    (h : findPendingIdx l = none) :
    ∀ k, decisionAt l k ≠ some Decision.pending := by
  induction l with
  | nil => intro k; simp [decisionAt_nil]
  | cons img rest ih =>
      by_cases hp : img.decision = Decision.pending
      · simp [findPendingIdx, if_pos hp] at h
      · simp only [findPendingIdx, if_neg hp] at h
        have hr : findPendingIdx rest = none := Option.map_eq_none'.mp h
        intro k
        cases k with
        | zero =>
            simp only [decisionAt_cons_zero]
            intro hc
            exact hp (by simpa using hc)
        | succ m =>
            rw [decisionAt_cons_succ]
            exact ih hr m

theorem decisionAt_drop (l : List ImageItem) (n m : Nat) :
    decisionAt (l.drop n) m = decisionAt l (n + m) := by
  simp [decisionAt, List.get?_eq_getElem?, List.getElem?_drop]

theorem nextPendingAfter_spec_some (l : List ImageItem) (t j : Nat)
    (h : nextPendingAfter l t = some j) :
    t < j ∧ decisionAt l j = some Decision.pending ∧
      ∀ k, t < k → k < j → decisionAt l k ≠ some Decision.pending := by
  obtain ⟨m, hm, rfl⟩ := Option.map_eq_some'.mp h
  obtain ⟨h1, h2⟩ := findPendingIdx_spec_some _ m hm
  refine ⟨by omega, ?_, ?_⟩
  · have := decisionAt_drop l (t + 1) m
    rw [this] at h1
    simpa [Nat.add_comm] using h1
  · intro k hk1 hk2
    have hk : k - (t + 1) < m := by omega
    have := h2 (k - (t + 1)) hk
    rw [decisionAt_drop] at this
    have heq : t + 1 + (k - (t + 1)) = k := by omega
    rwa [heq] at this

theorem nextPendingAfter_spec_none (l : List ImageItem) (t : Nat)
    (h : nextPendingAfter l t = none) :
    ∀ k, t < k → decisionAt l k ≠ some Decision.pending := by
  have hr : findPendingIdx (l.drop (t + 1)) = none := Option.map_eq_none'.mp h
  intro k hk
  have := findPendingIdx_spec_none _ hr (k - (t + 1))
  rw [decisionAt_drop] at this
  have heq : t + 1 + (k - (t + 1)) = k := by omega
  rwa [heq] at this

theorem findIdxById_spec_some (l : List ImageItem) (tid : String) (j : Nat)
    (h : findIdxById l tid = some j) :
    ∃ img, l.get? j = some img ∧ img.id = tid := by
  induction l generalizing j with
  | nil => simp [findIdxById] at h
  | cons img rest ih =>
      by_cases hp : img.id = tid
      · simp only [findIdxById, if_pos hp] at h
        cases h
        exact ⟨img, rfl, hp⟩
      · simp only [findIdxById, if_neg hp] at h
        obtain ⟨j', hj', rfl⟩ := Option.map_eq_some'.mp h
        obtain ⟨img', h1, h2⟩ := ih j' hj'
        exact ⟨img', h1, h2⟩

theorem findIdxById_spec_none (l : List ImageItem) (tid : String)
    (h : findIdxById l tid = none) :
    ∀ img ∈ l, img.id ≠ tid := by
  induction l with
  | nil => simp
  | cons img rest ih =>
      by_cases hp : img.id = tid
      · simp [findIdxById, if_pos hp] at h
      · simp only [findIdxById, if_neg hp] at h
        have hr := Option.map_eq_none'.mp h
        intro x hx
        rcases List.mem_cons.mp hx with rfl | hx'
        · exact hp
        · exact ih hr x hx'

theorem removeFirstById_of_not_mem (l : List ImageItem) (tid : String)
    (h : ∀ x ∈ l, x.id ≠ tid) : removeFirstById l tid = l := by
  induction l with
  | nil => rfl
  | cons img rest ih =>
      have h0 : img.id ≠ tid := h img (List.mem_cons_self img rest)
      simp only [removeFirstById, if_neg h0]
      rw [ih (fun x hx => h x (List.mem_cons_of_mem img hx))]

theorem removeFirstById_eq_filter (l : List ImageItem) (tid : String)
    (h : (l.map (fun x => x.id)).Nodup) :
    removeFirstById l tid = l.filter (fun x => x.id ≠ tid) := by
  induction l with
  | nil => rfl
  | cons img rest ih =>
      simp only [List.map_cons, List.nodup_cons] at h
      obtain ⟨hni, hnd⟩ := h
      by_cases hp : img.id = tid
      · simp only [removeFirstById, if_pos hp]
        have hrest : ∀ x ∈ rest, x.id ≠ tid := by
          intro x hx hc
          have hxid : img.id = x.id := by rw [hp, hc]
          exact hni (hxid ▸ List.mem_map_of_mem (fun y => y.id) hx)
        rw [List.filter_cons_of_neg (by simp [hp])]
        rw [List.filter_eq_self.mpr (fun x hx => by simp [hrest x hx])]
      · simp only [removeFirstById, if_neg hp]
        rw [List.filter_cons_of_pos (by simp [hp]), ih hnd]

/-! ## Characterization of the host decision step -/

theorem makeDecision_host_eq (s : AppState) (d : Decision) (i : Nat)
    (hrem : s.isRemote = false) (hi : i < s.images.length) :
    makeDecision s d (some i) =
      ({ s with
          images := setDecisionAt s.images i d
          history := s.history ++ [i]
          currentIndex := hostNextIdx (setDecisionAt s.images i d) i
          isSaving := if s.hasRootHandle then false else s.isSaving },
       if s.connected then [PeerMessage.DECISION_ACK i] else [],
       performSave s.isRemote s.hasRootHandle s.rootFolderName
         (setDecisionAt s.images i d)
         (hostNextIdx (setDecisionAt s.images i d) i) (s.history ++ [i])) := by
  unfold makeDecision hostNextIdx
  simp [hrem, Nat.not_le.mpr hi]

theorem hostNextIdx_of_after (u : List ImageItem) (t j : Nat)
    (h : nextPendingAfter u t = some j) : hostNextIdx u t = j := by
  unfold hostNextIdx
  rw [h]
  rfl

theorem hostNextIdx_of_wrap (u : List ImageItem) (t j : Nat)
    (h1 : nextPendingAfter u t = none) (h2 : findPendingIdx u = some j) :
    hostNextIdx u t = j := by
  unfold hostNextIdx
  rw [h1, h2]
  rfl

theorem hostNextIdx_of_none (u : List ImageItem) (t : Nat)
    (h1 : nextPendingAfter u t = none) (h2 : findPendingIdx u = none) :
    hostNextIdx u t = t + 1 := by
  unfold hostNextIdx
  rw [h1, h2]
  rfl

/-! ## Concrete example states -/

/-- **C1, counterexample.**  On the catalog `[pending, keep, keep]` with no
pending record left after `decide(0, 'keep')`, the code sets the next
cursor to `0 + 1 = 1`, not `len(catalog) = 3` as the claim demands. -/
theorem C1_counterexample :
    (makeDecision exC1 Decision.keep (some 0)).1.currentIndex = 1 ∧
      (makeDecision exC1 Decision.keep (some 0)).1.currentIndex ≠
        exC1.images.length := by
  constructor
  · rfl
  · decide

/-- **C1 (amended).**  For every catalog and every index `i` with
`0 ≤ i < len(catalog)`, on the host `decide(i, d)` sets `catalog[i].decision`
to `d` (leaving all other records unchanged), pushes `i` onto the history
stack, and sets the next cursor to the smallest index greater than `i`
whose decision is still pending; if no such index exists it wrap-searches
from the start for any remaining pending index; if still none exists the
next cursor equals `i + 1` (not `len(catalog)`: the two agree only when
`i` is the last index). -/
theorem C1_decide_next_cursor (s : AppState) (d : Decision) (i : Nat)
    (hrem : s.isRemote = false) (hi : i < s.images.length) :
    decisionAt (makeDecision s d (some i)).1.images i = some d ∧
    (∀ j, j ≠ i →
      (makeDecision s d (some i)).1.images.get? j = s.images.get? j) ∧
    (makeDecision s d (some i)).1.history = s.history ++ [i] ∧
    ((∃ j, i < j ∧
        decisionAt (makeDecision s d (some i)).1.images j =
          some Decision.pending) →
      i < (makeDecision s d (some i)).1.currentIndex ∧
      decisionAt (makeDecision s d (some i)).1.images
          (makeDecision s d (some i)).1.currentIndex =
        some Decision.pending ∧
      ∀ k, i < k → k < (makeDecision s d (some i)).1.currentIndex →
        decisionAt (makeDecision s d (some i)).1.images k ≠
          some Decision.pending) ∧
    ((∀ j, i < j →
        decisionAt (makeDecision s d (some i)).1.images j ≠
          some Decision.pending) →
      (∃ j, decisionAt (makeDecision s d (some i)).1.images j =
          some Decision.pending) →
      decisionAt (makeDecision s d (some i)).1.images
          (makeDecision s d (some i)).1.currentIndex =
        some Decision.pending ∧
      ∀ k, k < (makeDecision s d (some i)).1.currentIndex →
        decisionAt (makeDecision s d (some i)).1.images k ≠
          some Decision.pending) ∧
    ((∀ j, decisionAt (makeDecision s d (some i)).1.images j ≠
        some Decision.pending) →
      (makeDecision s d (some i)).1.currentIndex = i + 1) := by
  rw [makeDecision_host_eq s d i hrem hi]
  set u := setDecisionAt s.images i d with hu
  refine ⟨decisionAt_setDecisionAt_self s.images i d hi,
    fun j hj => get?_setDecisionAt_ne s.images i d j hj, rfl, ?_, ?_, ?_⟩
  · rintro ⟨j, hij, hpj⟩
    cases hnext : nextPendingAfter u i with
    | some m =>
        rw [hostNextIdx_of_after u i m hnext]
        obtain ⟨h1, h2, h3⟩ := nextPendingAfter_spec_some u i m hnext
        exact ⟨h1, h2, h3⟩
    | none =>
        exact absurd hpj (nextPendingAfter_spec_none u i hnext j hij)
  · intro _ hex
    obtain ⟨j, hpj⟩ := hex
    cases hfind : findPendingIdx u with
    | some m =>
        cases hnext : nextPendingAfter u i with
        | some m' =>
            rw [hostNextIdx_of_after u i m' hnext]
            obtain ⟨h1, h2, h3⟩ := nextPendingAfter_spec_some u i m' hnext
            obtain ⟨g1, g2⟩ := findPendingIdx_spec_some u m hfind
            -- the wrap result is the global minimum; with the first branch
            -- taken the cursor is still a pending index, and minimality
            -- below it among indices > i is not enough: use the premise
            -- that nothing after i is pending to rule this branch out
            exact absurd h2 ((by assumption : ∀ j, i < j →
              decisionAt u j ≠ some Decision.pending) m' h1)
        | none =>
            rw [hostNextIdx_of_wrap u i m hnext hfind]
            exact findPendingIdx_spec_some u m hfind
    | none =>
        exact absurd hpj (findPendingIdx_spec_none u hfind j)
  · intro hall
    cases hnext : nextPendingAfter u i with
    | some m =>
        obtain ⟨h1, h2, _⟩ := nextPendingAfter_spec_some u i m hnext
        exact absurd h2 (hall m)
    | none =>
        cases hfind : findPendingIdx u with
        | some m =>
            obtain ⟨h1, _⟩ := findPendingIdx_spec_some u m hfind
            exact absurd h1 (hall m)
        | none => exact hostNextIdx_of_none u i hnext hfind

/-- Witness for C1 at the spec's own example: `decide(0, 'keep')` on
`[pending, delete, pending, keep]`. -/
theorem C1_witness :
    exC1w.isRemote = false ∧ 0 < exC1w.images.length ∧
      decisionAt (makeDecision exC1w Decision.keep (some 0)).1.images 0 =
        some Decision.keep := by
  refine ⟨rfl, by decide, ?_⟩
  exact (C1_decide_next_cursor exC1w Decision.keep 0 rfl (by decide)).1

/-- **C2, counterexample.**  A remote with cursor 0 that receives
`DECISION_ACK` carrying index 0 keeps its cursor at 0; it is not advanced
to `0 + 1` as the claim states. -/
theorem C2_counterexample :
    (handlePeerMessage exRemote (PeerMessage.DECISION_ACK 0)).1.currentIndex
        = 0 ∧
      (handlePeerMessage exRemote
          (PeerMessage.DECISION_ACK 0)).1.currentIndex ≠ 0 + 1 := by
  constructor
  · rfl
  · decide

/-- **C2 (amended).**  When the remote receives a `DECISION_ACK` message,
it clears its saving indicator and changes nothing else — in particular
its cursor stays where it was (the cursor is updated only by the host's
subsequent `NAVIGATE` broadcast). -/
theorem C2_ack_clears_saving (s : AppState) (i : Nat)
    (hrem : s.isRemote = true) :
    handlePeerMessage s (PeerMessage.DECISION_ACK i) =
        ({ s with isSaving := false }, [], []) ∧
      (handlePeerMessage s (PeerMessage.DECISION_ACK i)).1.currentIndex =
        s.currentIndex := by
  unfold handlePeerMessage
  simp [hrem]

/-- Witness for C2 (amended) at the concrete remote state `exRemote`. -/
theorem C2_witness :
    handlePeerMessage exRemote (PeerMessage.DECISION_ACK 1) =
      ({ exRemote with isSaving := false }, [], []) :=
  (C2_ack_clears_saving exRemote 1 rfl).1

/-- **C3.**  A decision made on the remote never mutates the mirror: the
state is returned unchanged, nothing is persisted, the only message that
can be sent is the `DECISION` intent (sent exactly when the connection is
open and the target index is in range), and the host handles a received
`DECISION` message exactly as a local `makeDecision(decision, index)`
call. -/
theorem C3_remote_only_requests (s : AppState) (d : Decision)
    (idx? : Option Nat) (hrem : s.isRemote = true) :
    (makeDecision s d idx?).1 = s ∧
    (makeDecision s d idx?).2.2 = [] ∧
    (∀ m ∈ (makeDecision s d idx?).2.1,
      m = PeerMessage.DECISION d (idx?.getD s.currentIndex)) ∧
    (idx?.getD s.currentIndex < s.images.length → s.connected = true →
      (makeDecision s d idx?).2.1 =
        [PeerMessage.DECISION d (idx?.getD s.currentIndex)]) ∧
    (∀ hs : AppState, ∀ j : Nat,
      handlePeerMessage hs (PeerMessage.DECISION d j) =
        makeDecision hs d (some j)) := by
  unfold makeDecision
  rcases le_or_lt s.images.length (idx?.getD s.currentIndex) with hle | hlt
  · simp only [if_pos hle]
    refine ⟨by simp, by simp, by simp, ?_, fun hs j => rfl⟩
    intro hcontra _
    omega
  · simp only [if_neg (Nat.not_le.mpr hlt), hrem]
    cases hc : s.connected with
    | true =>
        simp only [if_pos rfl]
        refine ⟨by simp, by simp, ?_, fun _ _ => rfl, fun hs j => rfl⟩
        intro m hm
        simpa using hm
    | false =>
        simp only [Bool.false_eq_true, if_false]
        refine ⟨by simp, by simp, by simp, ?_, fun hs j => rfl⟩
        intro _ hcon
        cases hcon

/-- Witness for C3 at the concrete remote state `exRemote`. -/
theorem C3_witness :
    (makeDecision exRemote Decision.keep none).1 = exRemote ∧
      (makeDecision exRemote Decision.keep none).2.1 =
        [PeerMessage.DECISION Decision.keep 0] := by
  have h := C3_remote_only_requests exRemote Decision.keep none rfl
  exact ⟨h.1, h.2.2.2.1 (by decide) rfl⟩

/-- **C4.**  For any host catalog and any pending index `i`,
`decide(i, 'keep')` followed by `undo()` restores `catalog[i].decision` to
pending, puts the cursor back on `i`, and leaves the history stack length
as it was before the pair of operations; and `undo()` with an empty
history stack is a silent no-op. -/
theorem C4_decide_undo_identity (s : AppState) (i : Nat)
    (hrem : s.isRemote = false) (hi : i < s.images.length)
    (_hp : decisionAt s.images i = some Decision.pending) :
    (decisionAt (undoLast (makeDecision s Decision.keep (some i)).1).1.images
        i = some Decision.pending ∧
      (undoLast (makeDecision s Decision.keep (some i)).1).1.currentIndex
        = i ∧
      (undoLast
          (makeDecision s Decision.keep (some i)).1).1.history.length =
        s.history.length) ∧
    (∀ s0 : AppState, s0.isRemote = false → s0.history = [] →
      undoLast s0 = (s0, [], [])) := by
  constructor
  · rw [makeDecision_host_eq s Decision.keep i hrem hi]
    unfold undoLast
    simp only [hrem, Bool.false_eq_true, if_false, List.getLast?_concat]
    have hlen : i < (setDecisionAt s.images i Decision.keep).length := by
      rw [setDecisionAt_length]; exact hi
    refine ⟨decisionAt_setDecisionAt_self _ i Decision.pending hlen, by trivial,
      ?_⟩
    simp [List.dropLast_concat]
  · intro s0 h1 h2
    unfold undoLast
    simp [h1, h2]

/-- Witness for C4: `decide(0, 'keep')` then `undo()` on the example
catalog `[pending, delete, pending, keep]` restores index 0 to pending. -/
theorem C4_witness :
    decisionAt
        (undoLast (makeDecision exC1w Decision.keep (some 0)).1).1.images 0 =
      some Decision.pending ∧
      (undoLast (makeDecision exC1w Decision.keep (some 0)).1).1.currentIndex
        = 0 :=
  ⟨(C4_decide_undo_identity exC1w 0 rfl (by decide) rfl).1.1,
   (C4_decide_undo_identity exC1w 0 rfl (by decide) rfl).1.2.1⟩

/-- **C10.**  Calling `makeDecision` with a target index at or beyond the
catalog length (so in particular on an empty catalog), whether on the host
or on the remote, is a total no-op: state unchanged, no peer message, no
persistence call. -/
theorem C10_out_of_range_noop :
    (∀ (s : AppState) (d : Decision) (i : Nat), s.images.length ≤ i →
      makeDecision s d (some i) = (s, [], [])) ∧
    (∀ (s : AppState) (d : Decision), s.images.length ≤ s.currentIndex →
      makeDecision s d none = (s, [], [])) := by
  constructor
  · intro s d i h
    unfold makeDecision
    simp [h]
  · intro s d h
    unfold makeDecision
    simp [h]

/-- Witness for C10: a decision on an empty catalog, and one at an
out-of-range index of a non-empty catalog, are both no-ops. -/
theorem C10_witness :
    makeDecision exEmpty Decision.keep none = (exEmpty, [], []) ∧
      makeDecision exC1w Decision.delete (some 7) = (exC1w, [], []) :=
  ⟨C10_out_of_range_noop.2 exEmpty Decision.keep (by decide),
   C10_out_of_range_noop.1 exC1w Decision.delete 7 (by decide)⟩

/-- **C6.**  After `loadFolder` merges persisted decisions into the scan
result, the starting cursor is the first index whose merged decision is
pending (in scan order); and when no pending entry exists and the catalog
is non-empty, the initial view is `summary` rather than `culling`. -/
theorem C6_load_folder_start (found : List ImageItem)
    (decs : String → Option Decision) :
    (loadFolder found decs).1 = mergeDecisions found decs ∧
    ((∃ j, decisionAt (loadFolder found decs).1 j = some Decision.pending) →
      decisionAt (loadFolder found decs).1 (loadFolder found decs).2.1 =
          some Decision.pending ∧
        ∀ k, k < (loadFolder found decs).2.1 →
          decisionAt (loadFolder found decs).1 k ≠
            some Decision.pending) ∧
    ((∀ j, decisionAt (loadFolder found decs).1 j ≠ some Decision.pending) →
      (loadFolder found decs).1.length ≠ 0 →
      (loadFolder found decs).2.2.1 = View.summary) := by
  refine ⟨rfl, ?_, ?_⟩
  · rintro ⟨j, hpj⟩
    unfold loadFolder at hpj ⊢
    simp only at hpj ⊢
    cases hfind : findPendingIdx (mergeDecisions found decs) with
    | some m =>
        simp only [hfind, Option.getD_some]
        exact findPendingIdx_spec_some _ m hfind
    | none =>
        exact absurd hpj (findPendingIdx_spec_none _ hfind j)
  · intro hall hne
    unfold loadFolder at hall hne ⊢
    simp only at hall hne ⊢
    cases hfind : findPendingIdx (mergeDecisions found decs) with
    | some m =>
        obtain ⟨h1, _⟩ := findPendingIdx_spec_some _ m hfind
        exact absurd h1 (hall m)
    | none =>
        rw [if_pos ⟨rfl, by omega⟩]

/-- Witness for C6: a two-record scan where the persisted map marks the
first record kept; the starting cursor lands on the second (pending)
record. -/
theorem C6_witness :
    decisionAt
        (loadFolder [exImg "a" "pa" Decision.pending,
                     exImg "b" "pb" Decision.pending]
          (fun p => if p = "pa" then some Decision.keep else none)).1
        (loadFolder [exImg "a" "pa" Decision.pending,
                     exImg "b" "pb" Decision.pending]
          (fun p => if p = "pa" then some Decision.keep else none)).2.1 =
      some Decision.pending :=
  ((C6_load_folder_start _ _).2.1 ⟨1, by decide⟩).1

/-- **C7.**  The host's push effect consults `remoteImageCache` before
sending, but nothing ever records a sent index in that cache on the host,
so the guarantee "a payload for the same index is never sent twice within
a session" fails: starting from `exHost` (cursor 0, empty cache), the
effect sends the index-1 payload; after `decide(0,'keep')` moves the
cursor to 1, the effect fires again and sends the identical index-1
payload a second time. -/
theorem C7_duplicate_send :
    PeerMessage.IMAGE_DATA "b" "b.jpg" "bytes-b" 1 ∈ pushSyncEffect exHost ∧
    (makeDecision exHost Decision.keep none).1.currentIndex ≠
      exHost.currentIndex ∧
    PeerMessage.IMAGE_DATA "b" "b.jpg" "bytes-b" 1 ∈
      pushSyncEffect (makeDecision exHost Decision.keep none).1 := by
  refine ⟨?_, by decide, ?_⟩ <;> decide

/-! ## Bulk-deletion lemmas (C5) -/

theorem deletionPass_images (toDelete : List ImageItem) :
    ∀ (u : List ImageItem) (ok : ImageItem → Bool) (dir : String)
      (total count : Nat),
      (deletionPass u toDelete ok dir total count).1 =
        remAll u ((toDelete.filter ok).map (fun x => x.id)) := by
  induction toDelete with
  | nil => intro u ok dir total count; rfl
  | cons img rest ih =>
      intro u ok dir total count
      by_cases hok : ok img = true
      · simp only [deletionPass, hok, eq_self_iff_true, if_true,
          List.filter_cons_of_pos hok, List.map_cons]
        exact ih (removeFirstById u img.id) ok dir total (count + 1)
      · have hok' : ok img = false := by
          cases h : ok img
          · rfl
          · exact absurd h hok
        simp only [deletionPass, hok', Bool.false_eq_true, if_false,
          List.filter_cons_of_neg hok]
        exact ih u ok dir total (count + 1)

theorem deletionPass_ops (toDelete : List ImageItem) :
    ∀ (u : List ImageItem) (ok : ImageItem → Bool) (dir : String)
      (total count : Nat),
      (deletionPass u toDelete ok dir total count).2.1 =
        (toDelete.filter ok).map (fun img =>
          DbOp.saveDecision ⟨dir, img.relativePath, Decision.pending⟩) := by
  induction toDelete with
  | nil => intro u ok dir total count; rfl
  | cons img rest ih =>
      intro u ok dir total count
      by_cases hok : ok img = true
      · simp only [deletionPass, hok, eq_self_iff_true, if_true,
          List.filter_cons_of_pos hok, List.map_cons]
        rw [ih (removeFirstById u img.id) ok dir total (count + 1)]
      · have hok' : ok img = false := by
          cases h : ok img
          · rfl
          · exact absurd h hok
        simp only [deletionPass, hok', Bool.false_eq_true, if_false,
          List.filter_cons_of_neg hok]
        exact ih u ok dir total (count + 1)

theorem nodup_ids_filter (u : List ImageItem) (p : ImageItem → Bool)
    (h : (u.map (fun x => x.id)).Nodup) :
    ((u.filter p).map (fun x => x.id)).Nodup :=
  List.Nodup.sublist (List.Sublist.map _ (List.filter_sublist u)) h

theorem remAll_eq_filter (tids : List String) :
    ∀ (u : List ImageItem), (u.map (fun x => x.id)).Nodup →
      remAll u tids = u.filter (fun x => !(tids.contains x.id)) := by
  induction tids with
  | nil =>
      intro u _
      simp [remAll]
  | cons t rest ih =>
      intro u hnd
      rw [remAll, removeFirstById_eq_filter u t hnd,
        ih _ (nodup_ids_filter u _ hnd), List.filter_filter]
      apply List.filter_congr
      intro x _
      by_cases hx : x.id = t
      · simp [hx]
      · simp [hx]

theorem succ_ids_contains (images : List ImageItem) (ok : ImageItem → Bool)
    (hnodup : (images.map (fun x => x.id)).Nodup) (x : ImageItem)
    (hx : x ∈ images) :
    ((((images.filter (fun img => img.decision = Decision.delete)).filter
        ok).map (fun y => y.id)).contains x.id) = removedBy ok x := by
  by_cases hr : removedBy ok x = true
  · rw [hr]
    have hdel : decide (x.decision = Decision.delete) = true ∧ ok x = true := by
      have := hr
      unfold removedBy at this
      exact Bool.and_eq_true_iff.mp this
    have hmem : x ∈ (images.filter
        (fun img => img.decision = Decision.delete)).filter ok :=
      List.mem_filter.mpr ⟨List.mem_filter.mpr ⟨hx, hdel.1⟩, hdel.2⟩
    exact List.elem_iff.mpr (List.mem_map_of_mem (fun y => y.id) hmem)
  · have hr' : removedBy ok x = false := by
      cases h : removedBy ok x
      · rfl
      · exact absurd h hr
    rw [hr']
    cases hc : (((images.filter
        (fun img => img.decision = Decision.delete)).filter ok).map
          (fun y => y.id)).contains x.id
    · rfl
    · exfalso
      have hmem := List.elem_iff.mp hc
      obtain ⟨y, hy, hyx⟩ := List.mem_map.mp hmem
      have hy1 := List.mem_filter.mp hy
      have hy2 := List.mem_filter.mp hy1.1
      have hxy : y = x :=
        List.inj_on_of_nodup_map hnodup hy2.1 hx hyx
      apply hr
      unfold removedBy
      rw [← hxy]
      exact Bool.and_eq_true_iff.mpr ⟨hy2.2, hy1.2⟩

/-- **C5.**  After bulk deletion with the read-write grant in place, every
successfully removed record is gone from the in-memory catalog (the
surviving records keep their order) and has its persisted decision reset
to `pending`; the undo history is cleared; and the recomputed cursor points
at the record that was being viewed (tracked by its stable id) when that
record survived, else at the first remaining pending record, else at 0. -/
theorem C5_bulk_deletion (s : AppState) (ok : ImageItem → Bool)
    (viewed : ImageItem)
    (hrh : s.hasRootHandle = true)
    (hview : s.images.get? s.currentIndex = some viewed)
    (hid : viewed.id ≠ "")
    (hnodup : (s.images.map (fun x => x.id)).Nodup) :
    (executeLiveDeletion s true ok).1.images =
        s.images.filter (fun x => !removedBy ok x) ∧
    (∀ img ∈ s.images, removedBy ok img = true →
      DbOp.saveDecision ⟨s.rootFolderName, img.relativePath, Decision.pending⟩
        ∈ (executeLiveDeletion s true ok).2.1) ∧
    (executeLiveDeletion s true ok).1.history = [] ∧
    (removedBy ok viewed = false →
      (executeLiveDeletion s true ok).1.images.get?
        (executeLiveDeletion s true ok).1.currentIndex = some viewed) ∧
    (removedBy ok viewed = true →
      (∃ j, decisionAt (executeLiveDeletion s true ok).1.images j =
          some Decision.pending) →
      decisionAt (executeLiveDeletion s true ok).1.images
          (executeLiveDeletion s true ok).1.currentIndex =
        some Decision.pending ∧
      ∀ k, k < (executeLiveDeletion s true ok).1.currentIndex →
        decisionAt (executeLiveDeletion s true ok).1.images k ≠
          some Decision.pending) ∧
    (removedBy ok viewed = true →
      (∀ j, decisionAt (executeLiveDeletion s true ok).1.images j ≠
          some Decision.pending) →
      (executeLiveDeletion s true ok).1.currentIndex = 0) := by
  have himg : (executeLiveDeletion s true ok).1.images =
      s.images.filter (fun x => !removedBy ok x) := by
    unfold executeLiveDeletion
    simp only [hrh, Bool.true_eq_false, if_false]
    rw [deletionPass_images, remAll_eq_filter _ _ hnodup]
    apply List.filter_congr
    intro x hx
    rw [succ_ids_contains s.images ok hnodup x hx]
  have hops : (executeLiveDeletion s true ok).2.1 =
      ((s.images.filter (fun img =>
        img.decision = Decision.delete)).filter ok).map (fun img =>
          DbOp.saveDecision
            ⟨s.rootFolderName, img.relativePath, Decision.pending⟩) := by
    unfold executeLiveDeletion
    simp only [hrh, Bool.true_eq_false, if_false]
    rw [deletionPass_ops]
  have hcur : (executeLiveDeletion s true ok).1.currentIndex =
      (match findIdxById (s.images.filter (fun x => !removedBy ok x))
          viewed.id with
       | some foundIdx => foundIdx
       | none =>
           match findPendingIdx
               (s.images.filter (fun x => !removedBy ok x)) with
           | some pendingIdx => pendingIdx
           | none => 0) := by
    unfold executeLiveDeletion
    simp only [hrh, Bool.true_eq_false, if_false, hview, Option.map_some']
    rw [if_neg hid]
    rw [deletionPass_images, remAll_eq_filter _ _ hnodup,
      List.filter_congr (fun x hx => by
        rw [succ_ids_contains s.images ok hnodup x hx])]
  have hhist : (executeLiveDeletion s true ok).1.history = [] := by
    unfold executeLiveDeletion
    simp only [hrh, Bool.true_eq_false, if_false]
  refine ⟨himg, ?_, hhist, ?_, ?_, ?_⟩
  · intro img hmem hrem
    rw [hops]
    have hdel : decide (img.decision = Decision.delete) = true ∧
        ok img = true := by
      unfold removedBy at hrem
      exact Bool.and_eq_true_iff.mp hrem
    exact List.mem_map_of_mem _
      (List.mem_filter.mpr ⟨List.mem_filter.mpr ⟨hmem, hdel.1⟩, hdel.2⟩)
  · intro hsurv
    have hvmem : viewed ∈ s.images.filter (fun x => !removedBy ok x) :=
      List.mem_filter.mpr ⟨List.get?_mem hview, by rw [hsurv]; rfl⟩
    rw [himg, hcur]
    cases hfi : findIdxById (s.images.filter (fun x => !removedBy ok x))
        viewed.id with
    | some j =>
        obtain ⟨img', hg, hgid⟩ := findIdxById_spec_some _ _ j hfi
        have himem : img' ∈ s.images.filter (fun x => !removedBy ok x) :=
          List.get?_mem hg
        have heq : img' = viewed :=
          List.inj_on_of_nodup_map hnodup
            (List.mem_filter.mp himem).1 (List.get?_mem hview) hgid
        rw [hg, heq]
    | none =>
        exact absurd rfl
          (findIdxById_spec_none _ _ hfi viewed hvmem)
  · intro hgone hex
    rw [himg] at hex ⊢
    rw [hcur]
    have hnone : findIdxById (s.images.filter (fun x => !removedBy ok x))
        viewed.id = none := by
      cases hfi : findIdxById (s.images.filter (fun x => !removedBy ok x))
          viewed.id with
      | none => rfl
      | some j =>
          obtain ⟨img', hg, hgid⟩ := findIdxById_spec_some _ _ j hfi
          have himem := List.get?_mem hg
          have heq : img' = viewed :=
            List.inj_on_of_nodup_map hnodup
              (List.mem_filter.mp himem).1 (List.get?_mem hview) hgid
          rw [heq] at himem
          have := (List.mem_filter.mp himem).2
          rw [hgone] at this
          cases this
    rw [hnone]
    obtain ⟨j, hpj⟩ := hex
    cases hfp : findPendingIdx (s.images.filter (fun x => !removedBy ok x))
        with
    | some m => exact findPendingIdx_spec_some _ m hfp
    | none => exact absurd hpj (findPendingIdx_spec_none _ hfp j)
  · intro hgone hall
    rw [himg] at hall
    rw [hcur]
    have hnone : findIdxById (s.images.filter (fun x => !removedBy ok x))
        viewed.id = none := by
      cases hfi : findIdxById (s.images.filter (fun x => !removedBy ok x))
          viewed.id with
      | none => rfl
      | some j =>
          obtain ⟨img', hg, hgid⟩ := findIdxById_spec_some _ _ j hfi
          have himem := List.get?_mem hg
          have heq : img' = viewed :=
            List.inj_on_of_nodup_map hnodup
              (List.mem_filter.mp himem).1 (List.get?_mem hview) hgid
          rw [heq] at himem
          have := (List.mem_filter.mp himem).2
          rw [hgone] at this
          cases this
    rw [hnone]
    cases hfp : findPendingIdx (s.images.filter (fun x => !removedBy ok x))
        with
    | some m =>
        obtain ⟨h1, _⟩ := findPendingIdx_spec_some _ m hfp
        exact absurd h1 (hall m)
    | none => rfl

/-- Witness for C5 at the spec's own example, with every physical delete
succeeding: the catalog compacts to `[B, D]`, the cursor stays on `B` and
the history is cleared. -/
theorem C5_witness :
    (executeLiveDeletion exC5 true (fun _ => true)).1.images =
        exC5.images.filter (fun x => !removedBy (fun _ => true) x) ∧
    (executeLiveDeletion exC5 true (fun _ => true)).1.images.get?
        (executeLiveDeletion exC5 true (fun _ => true)).1.currentIndex =
      some (exImg "B" "pb" Decision.keep) ∧
    (executeLiveDeletion exC5 true (fun _ => true)).1.history = [] := by
  have h := C5_bulk_deletion exC5 (fun _ => true)
    (exImg "B" "pb" Decision.keep) rfl rfl (by decide) (by decide)
  exact ⟨h.1, h.2.2.2.1 (by decide), h.2.2.1⟩

/-! ## Relink lemmas (C8) -/

theorem migrateDecisions_ok (newPath : String) (total : Nat) :
    ∀ (recs : List DecisionRecord) (db : PBState) (c : Nat),
      db.available = true →
      migrateDecisions db recs newPath total c =
        Except.ok
          ({ db with decisions := db.decisions.map (fun r =>
              if r.rid ∈ recs.map (fun x => x.rid) then
                { r with directoryName := newPath } else r) },
           (List.range recs.length).map (fun k => (c + k + 1, total))) := by
  intro recs
  induction recs with
  | nil =>
      intro db c _
      simp [migrateDecisions]
  | cons r rest ih =>
      intro db c hav
      have hupd : decisionsUpdateName db r.rid newPath =
          Except.ok { db with decisions := db.decisions.map (fun x =>
            if x.rid = r.rid then { x with directoryName := newPath }
            else x) } := by
        unfold decisionsUpdateName
        rw [if_pos hav]
      simp only [migrateDecisions, hupd,
        ih { db with decisions := db.decisions.map (fun x =>
          if x.rid = r.rid then { x with directoryName := newPath }
          else x) } (c + 1) hav]
      simp only [List.map_map]
      have hdec2 : db.decisions.map ((fun r1 : DecisionRecord =>
          if r1.rid ∈ rest.map (fun x => x.rid) then
            { r1 with directoryName := newPath } else r1) ∘
            (fun x : DecisionRecord =>
              if x.rid = r.rid then { x with directoryName := newPath }
              else x)) =
          db.decisions.map (fun r1 =>
            if r1.rid ∈ (r :: rest).map (fun x => x.rid) then
              { r1 with directoryName := newPath } else r1) := by
        apply List.map_congr_left
        intro x _
        by_cases hx : x.rid = r.rid
        · simp only [Function.comp, hx, if_pos rfl]
          by_cases hmem : r.rid ∈ rest.map (fun y => y.rid)
          · simp [hmem]
          · simp [hmem]
        · simp only [Function.comp, if_neg hx]
          by_cases hmem : x.rid ∈ rest.map (fun y => y.rid)
          · simp [hmem, hx]
          · simp [hmem, hx]
      have hprog2 : ((c + 1, total) :: (List.range rest.length).map
          (fun k => (c + 1 + k + 1, total))) =
          (List.range (r :: rest).length).map
            (fun k => (c + k + 1, total)) := by
        rw [List.length_cons, List.range_succ_eq_map, List.map_cons,
          List.map_map]
        refine congrArg₂ List.cons rfl ?_
        apply List.map_congr_left
        intro k _
        have hk : c + 1 + k + 1 = c + (k + 1) + 1 := by omega
        simp only [Function.comp]
        rw [hk]
      rw [hdec2, hprog2]

theorem foldl_decision_map (records : List DecisionRecord) :
    ∀ acc : List (String × Decision),
      (records.map (fun r => r.relativePath)).Nodup →
      (∀ p ∈ acc, ∀ r ∈ records, p.1 ≠ r.relativePath) →
      records.foldl (fun m r =>
        if m.any (fun p => p.1 = r.relativePath) then
          m.map (fun p =>
            if p.1 = r.relativePath then (r.relativePath, r.decision) else p)
        else m ++ [(r.relativePath, r.decision)]) acc =
      acc ++ records.map (fun r => (r.relativePath, r.decision)) := by
  induction records with
  | nil => intro acc _ _; simp
  | cons r rest ih =>
      intro acc hnd hdisj
      simp only [List.map_cons, List.nodup_cons] at hnd
      obtain ⟨hhead, htail⟩ := hnd
      have hany : acc.any (fun p => p.1 = r.relativePath) = false := by
        rw [List.any_eq_false]
        intro p hp
        simp only [decide_eq_true_eq]
        exact hdisj p hp r (List.mem_cons_self r rest)
      rw [List.foldl_cons]
      rw [if_neg (by rw [hany]; exact Bool.false_ne_true)]
      rw [ih (acc ++ [(r.relativePath, r.decision)]) htail ?_]
      · simp
      · intro p hp r' hr'
        rcases List.mem_append.mp hp with hpa | hpr
        · exact hdisj p hpa r' (List.mem_cons_of_mem r hr')
        · have : p = (r.relativePath, r.decision) := by simpa using hpr
          rw [this]
          intro hc
          have hmem := List.mem_map_of_mem (fun x => x.relativePath) hr'
          simp only at hmem hc
          rw [← hc] at hmem
          exact hhead hmem

/-- **C8.**  Relinking a directory holding N persisted decision records,
with both backends reachable, renames the session record keyed by the old
name, renames each of the N decision records while reporting progress
exactly N times with strictly increasing count and constant total N,
swaps the cached capability handle from the old name to the new one, and a
subsequent decision lookup under the new name returns all N entries. -/
theorem C8_relink_migration (db : PBState) (st : IDBState)
    (oldPath newPath handle : String)
    (hav : db.available = true)
    (hidb : st.available = true)
    (hne : oldPath ≠ newPath)
    (hses : ∃ r ∈ db.sessions, r.directoryName = oldPath)
    (hsn : (db.sessions.map (fun r => r.directoryName)).Nodup)
    (hsr : (db.sessions.map (fun r => r.rid)).Nodup)
    (hdr : (db.decisions.map (fun r => r.rid)).Nodup)
    (hnew : ∀ r ∈ db.decisions, r.directoryName ≠ newPath)
    (hpaths : ((db.decisions.filter (fun r => r.directoryName = oldPath)).map
        (fun r => r.relativePath)).Nodup) :
    ∃ db2 st2,
      relinkSession db st oldPath newPath handle =
        Except.ok (db2, st2,
          (List.range (db.decisions.filter
              (fun r => r.directoryName = oldPath)).length).map
            (fun k => (k + 1, (db.decisions.filter
              (fun r => r.directoryName = oldPath)).length))) ∧
      db2.sessions = db.sessions.map (fun r =>
        if r.directoryName = oldPath then { r with directoryName := newPath }
        else r) ∧
      db2.decisions = db.decisions.map (fun r =>
        if r.directoryName = oldPath then { r with directoryName := newPath }
        else r) ∧
      st2.handles.find? (fun p => p.1 = newPath) = some (newPath, handle) ∧
      st2.handles.find? (fun p => p.1 = oldPath) = none ∧
      getDecisionsForDirectory db2 newPath =
        (db.decisions.filter (fun r => r.directoryName = oldPath)).map
          (fun r => (r.relativePath, r.decision)) ∧
      (getDecisionsForDirectory db2 newPath).length =
        (db.decisions.filter (fun r => r.directoryName = oldPath)).length := by
  obtain ⟨rs, hrsmem, hrsdir⟩ := hses
  have hfs : (db.sessions.find? (fun r => r.directoryName = oldPath)).isSome :=
    List.find?_isSome.mpr ⟨rs, hrsmem, by simp [hrsdir]⟩
  obtain ⟨r0, hr0⟩ := Option.isSome_iff_exists.mp hfs
  have hr0mem : r0 ∈ db.sessions := List.mem_of_find?_eq_some hr0
  have hr0p := List.find?_some hr0
  have hr0dir : r0.directoryName = oldPath := of_decide_eq_true hr0p
  have hfirst : sessionsGetFirstListItem db oldPath = Except.ok r0 := by
    unfold sessionsGetFirstListItem
    rw [if_pos hav, hr0]
  have hupd : sessionsUpdateName db r0.rid newPath =
      Except.ok { db with sessions := db.sessions.map (fun r =>
        if r.rid = r0.rid then { r with directoryName := newPath }
        else r) } := by
    unfold sessionsUpdateName
    rw [if_pos hav]
  set db1 : PBState := { db with sessions := db.sessions.map (fun r =>
    if r.rid = r0.rid then { r with directoryName := newPath } else r) }
    with hdb1
  have hdb1av : db1.available = true := hav
  set recs := db.decisions.filter (fun r => r.directoryName = oldPath)
    with hrecs
  have hlist : decisionsGetFullList db1 oldPath = Except.ok recs := by
    unfold decisionsGetFullList
    rw [if_pos hdb1av]
  have hmig := migrateDecisions_ok newPath recs.length recs db1 0 hdb1av
  set st1 : IDBState := { st with
    handles := st.handles.filter (fun p => p.1 ≠ oldPath) } with hst1
  have hdel : deleteHandleLocally st oldPath = Except.ok st1 := by
    unfold deleteHandleLocally idbDelete
    rw [if_pos hidb]
  have hst1av : st1.available = true := hidb
  set st2 : IDBState := { st1 with
    handles := st1.handles.filter (fun p => p.1 ≠ newPath) ++
      [(newPath, handle)] } with hst2
  have hstore : storeHandleLocally st1 newPath handle = Except.ok st2 := by
    unfold storeHandleLocally idbPut
    rw [if_pos hst1av]
  set db2 : PBState := { db1 with decisions := db1.decisions.map (fun r =>
    if r.rid ∈ recs.map (fun x => x.rid) then
      { r with directoryName := newPath } else r) } with hdb2
  have hrel : relinkSession db st oldPath newPath handle =
      Except.ok (db2, st2,
        (List.range recs.length).map (fun k => (0 + k + 1, recs.length))) := by
    unfold relinkSession
    rw [hfirst]
    simp only [Except.toOption]
    rw [hupd]
    simp only []
    rw [hlist]
    simp only []
    rw [hmig]
    simp only []
    rw [hdel]
    simp only []
    rw [hstore]
  have hprog : (List.range recs.length).map
      (fun k => (0 + k + 1, recs.length)) =
      (List.range recs.length).map (fun k => (k + 1, recs.length)) :=
    List.map_congr_left (fun k _ => by simp)
  have hdec : db2.decisions = db.decisions.map (fun r =>
      if r.directoryName = oldPath then { r with directoryName := newPath }
      else r) := by
    show db.decisions.map (fun r =>
      if r.rid ∈ recs.map (fun x => x.rid) then
        { r with directoryName := newPath } else r) = _
    apply List.map_congr_left
    intro x hx
    by_cases hdir : x.directoryName = oldPath
    · have hxin : x ∈ recs := List.mem_filter.mpr ⟨hx, by simp [hdir]⟩
      rw [if_pos (List.mem_map_of_mem (fun y => y.rid) hxin), if_pos hdir]
    · rw [if_neg ?_, if_neg hdir]
      intro hc
      obtain ⟨y, hy, hyx⟩ := List.mem_map.mp hc
      have hymem : y ∈ db.decisions := (List.mem_filter.mp hy).1
      have hydir : y.directoryName = oldPath :=
        of_decide_eq_true (List.mem_filter.mp hy).2
      have : y = x := List.inj_on_of_nodup_map hdr hymem hx hyx
      exact hdir (this ▸ hydir)
  have hses2 : db2.sessions = db.sessions.map (fun r =>
      if r.directoryName = oldPath then { r with directoryName := newPath }
      else r) := by
    show db.sessions.map (fun r =>
      if r.rid = r0.rid then { r with directoryName := newPath } else r) = _
    apply List.map_congr_left
    intro x hx
    by_cases hdir : x.directoryName = oldPath
    · have : x = r0 := List.inj_on_of_nodup_map hsn hx hr0mem
        (by rw [hdir, hr0dir])
      rw [if_pos (by rw [this]), if_pos hdir]
    · rw [if_neg ?_, if_neg hdir]
      intro hc
      have : x = r0 := List.inj_on_of_nodup_map hsr hx hr0mem hc
      exact hdir (this ▸ hr0dir)
  have hlookup : getDecisionsForDirectory db2 newPath =
      recs.map (fun r => (r.relativePath, r.decision)) := by
    have hfull : decisionsGetFullList db2 newPath =
        Except.ok (db2.decisions.filter
          (fun r => r.directoryName = newPath)) := by
      unfold decisionsGetFullList
      rw [if_pos (show db2.available = true from hav)]
    unfold getDecisionsForDirectory
    rw [hfull]
    simp only []
    have hfilter : db2.decisions.filter (fun r =>
        r.directoryName = newPath) = recs.map (fun r =>
          { r with directoryName := newPath }) := by
      rw [hdec, List.filter_map]
      have hcongr : db.decisions.filter ((fun r =>
          decide (r.directoryName = newPath)) ∘ (fun r =>
            if r.directoryName = oldPath then
              { r with directoryName := newPath } else r)) =
          db.decisions.filter (fun r => r.directoryName = oldPath) := by
        apply List.filter_congr
        intro x hx
        by_cases hdir : x.directoryName = oldPath
        · simp [Function.comp, hdir]
        · simp [Function.comp, hdir, hnew x hx]
      rw [hcongr, ← hrecs]
      apply List.map_congr_left
      intro x hxin
      have hxdir : x.directoryName = oldPath :=
        of_decide_eq_true (List.mem_filter.mp hxin).2
      rw [if_pos hxdir]
    rw [hfilter]
    have hnodup2 : ((recs.map (fun r =>
        { r with directoryName := newPath })).map
          (fun r => r.relativePath)).Nodup := by
      rw [List.map_map]
      exact hpaths
    have := foldl_decision_map (recs.map (fun r =>
      { r with directoryName := newPath })) [] hnodup2 (by simp)
    rw [this]
    simp only [List.nil_append, List.map_map]
    rfl
  refine ⟨db2, st2, ?_, hses2, hdec, ?_, ?_, hlookup, ?_⟩
  · rw [hrel, hprog]
  · rw [hst2]
    show (st1.handles.filter (fun p => p.1 ≠ newPath) ++
      [(newPath, handle)]).find? (fun p => p.1 = newPath) = _
    rw [List.find?_append]
    have h1 : (st1.handles.filter (fun p => p.1 ≠ newPath)).find?
        (fun p => p.1 = newPath) = none := by
      rw [List.find?_eq_none]
      intro p hp
      have := of_decide_eq_true (List.mem_filter.mp hp).2
      simp [this]
    rw [h1]
    simp
  · rw [hst2]
    show (st1.handles.filter (fun p => p.1 ≠ newPath) ++
      [(newPath, handle)]).find? (fun p => p.1 = oldPath) = _
    rw [List.find?_eq_none]
    intro p hp
    rcases List.mem_append.mp hp with hp1 | hp2
    · have hmem : p ∈ st1.handles := (List.mem_filter.mp hp1).1
      rw [hst1] at hmem
      have := of_decide_eq_true (List.mem_filter.mp hmem).2
      simp [this]
    · have : p = (newPath, handle) := by simpa using hp2
      rw [this]
      simp [Ne.symm hne]
  · rw [hlookup, List.length_map]

/-- Witness for C8: relinking `old` (two persisted decisions) to `new`
reports progress `(1,2)`, `(2,2)`. -/
theorem C8_witness :
    ∃ db2 st2, relinkSession exDB exIDB "old" "new" "h1" =
      Except.ok (db2, st2, [(1, 2), (2, 2)]) := by
  obtain ⟨db2, st2, h1, -, -, -, -, -, -⟩ :=
    C8_relink_migration exDB exIDB "old" "new" "h1" rfl rfl (by decide)
      ⟨{ rid := 0, directoryName := "old", lastIndex := 1, totalImages := 2,
         isDone := false }, by decide, rfl⟩
      (by decide) (by decide) (by decide) (by decide) (by decide)
  refine ⟨db2, st2, ?_⟩
  rw [h1]
  rfl

/-- **C9, counterexample.**  Two gateway calls whose failure is not caught
inside the gateway: `storeHandleLocally` rejects when its IndexedDB
request errors, and `relinkSession` rejects when PocketBase is
unreachable; both surface the failure to the caller instead of degrading. -/
theorem C9_counterexample :
    storeHandleLocally exIDBDown "proj" "h" =
        Except.error DbErr.idbFailure ∧
      relinkSession exDBDown exIDBDown "old" "new" "h" =
        Except.error DbErr.pbUnreachable := by
  constructor <;> rfl

/-- **C9 (amended).**  The PocketBase record operations wrapped in
`try/catch` (`getAllSessions`, `getSession`, `getDecisionsForDirectory`,
`saveDecision`, `saveSession`) degrade on failure — reads return
empty/null and writes are no-ops — but the local handle operations
(`storeHandleLocally`, `getHandleLocally`, `deleteHandleLocally`) and
`relinkSession` have no catch and propagate the failure to the caller. -/
theorem C9_gateway_degradation :
    (∀ (db : PBState) (name : String), db.available = false →
      getAllSessions db = [] ∧ getSession db name = none ∧
        getDecisionsForDirectory db name = []) ∧
    (∀ (db : PBState) (d : ImageDecision), db.available = false →
      saveDecision db d = db) ∧
    (∀ (db : PBState) (st : IDBState) (s : CullSession) (hh : Bool)
        (h : String), db.available = false →
      saveSession db st s hh h = (db, st)) ∧
    (∀ (st : IDBState) (name h : String), st.available = false →
      (∃ e, storeHandleLocally st name h = Except.error e) ∧
        (∃ e, getHandleLocally st name = Except.error e) ∧
        (∃ e, deleteHandleLocally st name = Except.error e)) ∧
    (∀ (db : PBState) (st : IDBState) (o n h : String),
      db.available = false →
      ∃ e, relinkSession db st o n h = Except.error e) := by
  refine ⟨?_, ?_, ?_, ?_, ?_⟩
  · intro db name hdown
    refine ⟨?_, ?_, ?_⟩
    · unfold getAllSessions sessionsGetFullList
      simp [hdown]
    · unfold getSession sessionsGetFirstListItem
      simp [hdown, Except.toOption]
    · unfold getDecisionsForDirectory decisionsGetFullList
      simp [hdown]
  · intro db d hdown
    unfold saveDecision decisionsGetFirstListItem decisionsCreate
    simp [hdown, Except.toOption]
  · intro db st s hh h hdown
    unfold saveSession sessionsGetFirstListItem sessionsCreate
    simp [hdown, Except.toOption]
  · intro st name h hdown
    refine ⟨⟨DbErr.idbFailure, ?_⟩, ⟨DbErr.idbFailure, ?_⟩,
      ⟨DbErr.idbFailure, ?_⟩⟩
    · unfold storeHandleLocally idbPut
      simp [hdown]
    · unfold getHandleLocally idbGet
      simp [hdown]
    · unfold deleteHandleLocally idbDelete
      simp [hdown]
  · intro db st o n h hdown
    refine ⟨DbErr.pbUnreachable, ?_⟩
    unfold relinkSession sessionsGetFirstListItem decisionsGetFullList
    simp [hdown, Except.toOption]

/-- Witness for C9 (amended) at concrete unavailable backends. -/
theorem C9_witness :
    getAllSessions exDBDown = [] ∧
      (∃ e, storeHandleLocally exIDBDown "p" "h" = Except.error e) :=
  ⟨(C9_gateway_degradation.1 exDBDown "p" rfl).1,
   (C9_gateway_degradation.2.2.2.1 exIDBDown "p" "h" rfl).1⟩

end PhotoCull
